import Mathlib

/-!
Verification of the markdown-to-HTML core of a static site generator.

The Python sources (`inline_markdown.py`, `htmlnode.py`, `main.py`) are
embedded shallowly: strings become `List Char`, the Python `str` operations
used by the code (`split`, `split(sep, 1)`, `strip`, `startswith`,
`endswith`, substring containment) become executable Lean functions on
`List Char`, and functions that can raise become `Except`-valued.
-/

/-! ## Python string primitives -/

/-- ASCII whitespace as recognised by Python's `str.strip` (the documents
processed by this repository are ASCII text). -/
def isPyWs (c : Char) : Bool :=
  c == ' ' || c == '\t' || c == '\n' || c == '\r' || c == '\x0b' || c == '\x0c'

/-- Python `str.strip()`: drop leading and trailing whitespace. -/
def strip (l : List Char) : List Char :=
  ((l.dropWhile isPyWs).reverse.dropWhile isPyWs).reverse

/-- Locate the leftmost occurrence of `sep` in `l`: returns the text before
the occurrence and the text after it.  `none` when `sep` does not occur
(for nonempty `sep`; the code never searches for an empty separator). -/
def splitFirst (sep : List Char) : List Char → Option (List Char × List Char)
  | [] => none
  | c :: cs =>
    if sep.isPrefixOf (c :: cs) then some ([], (c :: cs).drop sep.length)
    else
      match splitFirst sep cs with
      | some (pre, post) => some (c :: pre, post)
      | none => none

/-- Python substring containment `sep in l` (for the nonempty separators the
code uses). -/
def pyContains (sep l : List Char) : Bool :=
  (splitFirst sep l).isSome

/-- Fuel-driven worker for `pySplit`; the fuel bounds the number of
separator occurrences, so `pySplit` always supplies enough. -/
def pySplitAux (sep : List Char) : Nat → List Char → List (List Char)
  | 0, l => [l]
  | fuel + 1, l =>
    match splitFirst sep l with
    | none => [l]
    | some (pre, post) => pre :: pySplitAux sep fuel post

/-- Python `str.split(sep)` for a nonempty separator: split on every
non-overlapping occurrence of `sep`, leftmost first, keeping empty parts. -/
def pySplit (sep l : List Char) : List (List Char) :=
  if sep = [] then [l] else pySplitAux sep (l.length + 1) l

/-! ### Lemmas about the string primitives -/

theorem splitFirst_append_eq {sep : List Char} :
    ∀ {l pre post : List Char}, splitFirst sep l = some (pre, post) →
      l = pre ++ sep ++ post := by
  intro l
  induction l with
  | nil => intro pre post h; simp [splitFirst] at h
  | cons c cs ih =>
    intro pre post h
    simp only [splitFirst] at h
    split at h
    · rename_i hpre
      obtain ⟨t, ht⟩ := List.isPrefixOf_iff_prefix.mp hpre
      injection h with h1
      injection h1 with hp hq
      subst hp
      rw [← hq, ← ht, List.nil_append, List.drop_left]
    · rename_i hnpre
      cases hrec : splitFirst sep cs with
      | none => rw [hrec] at h; exact absurd h (by simp)
      | some pq =>
        obtain ⟨p, q⟩ := pq
        rw [hrec] at h
        injection h with h1
        injection h1 with hp hq
        subst hp hq
        have := ih hrec
        simp [this]

theorem splitFirst_post_lt {sep l pre post : List Char} (hsep : sep ≠ [])
    (h : splitFirst sep l = some (pre, post)) : post.length < l.length := by
  have he := splitFirst_append_eq h
  subst he
  simp only [List.length_append]
  cases sep with
  | nil => exact absurd rfl hsep
  | cons a as => simp [List.length_cons]

theorem pySplitAux_fuel {sep : List Char} (hsep : sep ≠ []) :
    ∀ f₁ : Nat, ∀ f₂ : Nat, ∀ l : List Char, l.length < f₁ → l.length < f₂ →
      pySplitAux sep f₁ l = pySplitAux sep f₂ l := by
  intro f₁
  induction f₁ with
  | zero => intro f₂ l h1 h2; omega
  | succ g ih =>
    intro f₂ l h1 h2
    cases f₂ with
    | zero => omega
    | succ g₂ =>
      simp only [pySplitAux]
      cases hsf : splitFirst sep l with
      | none => rfl
      | some pq =>
        obtain ⟨p, q⟩ := pq
        have hlt := splitFirst_post_lt hsep hsf
        have := ih g₂ q (by omega) (by omega)
        simp [this]

theorem pySplitAux_succ {sep : List Char} (f : Nat) (l : List Char) :
    pySplitAux sep (f + 1) l =
      match splitFirst sep l with
      | none => [l]
      | some (pre, post) => pre :: pySplitAux sep f post := rfl

theorem pySplit_of_none {sep l : List Char} (h : splitFirst sep l = none) :
    pySplit sep l = [l] := by
  unfold pySplit
  split
  · rfl
  · simp [pySplitAux, h]

theorem pySplit_cons {sep l pre post : List Char} (hsep : sep ≠ [])
    (h : splitFirst sep l = some (pre, post)) :
    pySplit sep l = pre :: pySplit sep post := by
  have hlt := splitFirst_post_lt hsep h
  have e1 : pySplit sep l = pre :: pySplitAux sep l.length post := by
    unfold pySplit
    rw [if_neg hsep, pySplitAux_succ, h]
  have e2 : pySplit sep post = pySplitAux sep (post.length + 1) post := by
    unfold pySplit
    rw [if_neg hsep]
  rw [e1, e2, pySplitAux_fuel hsep l.length (post.length + 1) post (by omega) (by omega)]

theorem pySplitAux_ne_nil {sep : List Char} :
    ∀ f l, pySplitAux sep f l ≠ [] := by
  intro f l
  cases f with
  | zero => simp [pySplitAux]
  | succ g =>
    simp only [pySplitAux]
    cases hsf : splitFirst sep l with
    | none => simp
    | some pq => obtain ⟨p, q⟩ := pq; simp

theorem pySplit_ne_nil {sep l : List Char} : pySplit sep l ≠ [] := by
  unfold pySplit
  split
  · simp
  · exact pySplitAux_ne_nil _ _

/-- The first piece returned by `pySplit` is an initial segment of the input. -/
theorem pySplit_head_prefix {sep l : List Char} (hsep : sep ≠ []) :
    ∃ t, l = (pySplit sep l).headD [] ++ t := by
  cases hsf : splitFirst sep l with
  | none => exact ⟨[], by simp [pySplit_of_none hsf]⟩
  | some pq =>
    obtain ⟨p, q⟩ := pq
    refine ⟨sep ++ q, ?_⟩
    rw [pySplit_cons hsep hsf]
    simpa using splitFirst_append_eq hsf

/-- A single-character separator that occurs nowhere in `a` is first found
exactly at the occurrence appended after `a`. -/
theorem splitFirst_single_append {c : Char} {a : List Char}
    (h : splitFirst [c] a = none) :
    ∀ r, splitFirst [c] (a ++ c :: r) = some (a, r) := by
  induction a with
  | nil =>
    intro r
    simp [splitFirst, List.isPrefixOf]
  | cons d ds ih =>
    intro r
    simp only [splitFirst] at h
    split at h
    · exact absurd h (by simp)
    · rename_i hnp
      have hds : splitFirst [c] ds = none := by
        cases hrec : splitFirst [c] ds with
        | none => rfl
        | some pq => obtain ⟨p, q⟩ := pq; rw [hrec] at h; exact absurd h (by simp)
      have hcd : (c == d) = false := by
        by_cases hcd' : c = d
        · subst hcd'
          exact absurd (by simp [List.isPrefixOf]) hnp
        · simp [hcd']
      have hrw := ih hds r
      simp only [List.cons_append, splitFirst, List.isPrefixOf, hcd,
        Bool.false_and, Bool.false_eq_true, if_false, List.append_eq, hrw]

/-- Splitting `a ++ c :: b ++ c :: d` on the single character `c` when none
of the three pieces contains `c`. -/
theorem pySplit_single_three {c : Char} {a b d : List Char}
    (ha : splitFirst [c] a = none) (hb : splitFirst [c] b = none)
    (hd : splitFirst [c] d = none) :
    pySplit [c] (a ++ c :: (b ++ c :: d)) = [a, b, d] := by
  have h1 : splitFirst [c] (a ++ c :: (b ++ c :: d)) = some (a, b ++ c :: d) :=
    splitFirst_single_append ha _
  rw [pySplit_cons (by simp) h1,
      pySplit_cons (by simp) (splitFirst_single_append hb d),
      pySplit_of_none hd]

theorem pyContains_eq_false_iff {sep l : List Char} :
    pyContains sep l = false ↔ splitFirst sep l = none := by
  unfold pyContains
  cases splitFirst sep l <;> simp

/-- Heads agree along a nonempty boolean prefix. -/
theorem head_eq_of_isPrefixOf : ∀ {p l : List Char}, p.isPrefixOf l = true →
    p ≠ [] → p.headD ' ' = l.headD ' ' := by
  intro p l h hp
  cases p with
  | nil => exact absurd rfl hp
  | cons a as =>
    cases l with
    | nil => simp [List.isPrefixOf] at h
    | cons b bs =>
      simp only [List.isPrefixOf, Bool.and_eq_true, beq_iff_eq] at h
      simp [h.1]

theorem isPrefixOf_append_self {p : List Char} :
    ∀ t, p.isPrefixOf (p ++ t) = true := by
  induction p with
  | nil => intro t; simp [List.isPrefixOf]
  | cons c cs ih => intro t; simp [List.isPrefixOf, ih]

theorem isSuffixOf_append_self {p : List Char} :
    ∀ t, p.isSuffixOf (t ++ p) = true := by
  intro t
  simp only [List.isSuffixOf, List.reverse_append]
  exact isPrefixOf_append_self _

/-! ## Inline span data model

`textnode.py` is imported by every core module but is absent from the
sources; its contents are the plain data carrier described by the spec. -/

/-- Modelled from the spec: the six inline-span variants of the missing
`textnode.py` (`TextType.TEXT/BOLD/ITALIC/CODE/LINK/IMAGE`). -/
inductive TextType where
  | text
  | bold
  | italic
  | code
  | link
  | image
deriving DecidableEq, Repr

/-- Modelled from the spec: the `TextNode` record of the missing
`textnode.py` — a text, a variant tag, and an optional url (default
`None`), with structural equality. -/
structure TextNode where
  text : List Char
  textType : TextType
  url : Option (List Char) := none
deriving DecidableEq, Repr

/-- The error taxonomy of the spec: `MarkdownSyntax` (raised by
`split_nodes_delimiter` as `ValueError("Invalid markdown syntax: unclosed
delimiter ...")`, carrying the offending delimiter), `ValueConstraint`
(raised by node rendering as `ValueError`), and `NotFound` (raised by
`extract_title`). -/
inductive MDError where
  | unclosedDelimiter (delim : List Char)
  | valueConstraint (msg : List Char)
  | notFound
deriving DecidableEq, Repr

/-! ## Inline pattern extraction (`extract_markdown_images` / `_links`)

The Python code uses `re.findall` with the patterns
`!\[([^\[\]]*)\]\(([^\(\)]*)\)` and `(?<!!)\[([^\[\]]*)\]\(([^\(\)]*)\)`.
Both regexes are deterministic: the greedy character classes exclude their
closing characters, so no backtracking succeeds.  They are embedded as a
left-to-right scanner that, at each position, tries the bracket pattern and
otherwise moves one character; matches are non-overlapping, as in
`re.findall`. -/

/-- Match `[text](url)` at the head of the input: `text` may not contain
square brackets, `url` may not contain parentheses.  Returns the two
captures and the remaining input. -/
def matchLinkAt : List Char → Option (List Char × List Char × List Char)
  | '[' :: cs =>
    let s1 := cs.span (fun c => c != '[' && c != ']')
    match s1.2 with
    | ']' :: '(' :: cs2 =>
      let s2 := cs2.span (fun c => c != '(' && c != ')')
      match s2.2 with
      | ')' :: rest => some (s1.1, s2.1, rest)
      | _ => none
    | _ => none
  | _ => none

/-- Match `![alt](url)` at the head of the input. -/
def matchImageAt : List Char → Option (List Char × List Char × List Char)
  | '!' :: cs => matchLinkAt cs
  | _ => none

/-- Scanner for image patterns.  The fuel starts at the input length, which
suffices because every step consumes at least one character. -/
def scanImagesAux : Nat → List Char → List (List Char × List Char)
  | 0, _ => []
  | _ + 1, [] => []
  | fuel + 1, c :: cs =>
    match matchImageAt (c :: cs) with
    | some (alt, url, rest) => (alt, url) :: scanImagesAux fuel rest
    | none => scanImagesAux fuel cs

/-- `extract_markdown_images`: all `(alt, url)` captures, first to last. -/
def extractMarkdownImages (t : List Char) : List (List Char × List Char) :=
  scanImagesAux t.length t

/-- Scanner for link patterns; `prev` is the character just before the
current position (`none` at the start of the input), implementing the
negative lookbehind `(?<!!)`: when the previous character is `!` the
pattern is not even attempted at this position. -/
def scanLinksAux : Nat → Option Char → List Char → List (List Char × List Char)
  | 0, _, _ => []
  | _ + 1, _, [] => []
  | fuel + 1, prev, c :: cs =>
    if prev = some '!' then scanLinksAux fuel (some c) cs
    else
      match matchLinkAt (c :: cs) with
      | some (txt, url, rest) => (txt, url) :: scanLinksAux fuel (some ')') rest
      | none => scanLinksAux fuel (some c) cs

/-- `extract_markdown_links`: all `(anchor, url)` captures, skipping
matches immediately preceded by `!`. -/
def extractMarkdownLinks (t : List Char) : List (List Char × List Char) :=
  scanLinksAux t.length none t

/-! ## Delimiter splitting (`split_nodes_delimiter`) -/

/-- Turn the pieces of a delimiter split into nodes: even positions
(0-indexed) are plain text, odd positions get the pass's target type;
empty pieces are dropped. -/
def partsToNodes (tt : TextType) : Nat → List (List Char) → List TextNode
  | _, [] => []
  | i, p :: ps =>
    (if p = [] then [] else [⟨p, if i % 2 = 0 then TextType.text else tt, none⟩])
      ++ partsToNodes tt (i + 1) ps

/-- `split_nodes_delimiter`: split every still-plain node on `delim`; an
even piece count means an unclosed delimiter and raises. -/
def splitNodesDelimiter : List TextNode → List Char → TextType →
    Except MDError (List TextNode)
  | [], _, _ => .ok []
  | n :: ns, delim, tt =>
    if n.textType = TextType.text then
      if pyContains delim n.text then
        let parts := pySplit delim n.text
        if parts.length % 2 = 0 then .error (.unclosedDelimiter delim)
        else
          match splitNodesDelimiter ns delim tt with
          | .error e => .error e
          | .ok rest => .ok (partsToNodes tt 0 parts ++ rest)
      else
        match splitNodesDelimiter ns delim tt with
        | .error e => .error e
        | .ok rest => .ok (n :: rest)
    else
      match splitNodesDelimiter ns delim tt with
      | .error e => .error e
      | .ok rest => .ok (n :: rest)

/-! ## Image and link splitting (`split_nodes_image` / `split_nodes_link`) -/

/-- The loop body of `split_nodes_image`: walk the extracted images,
splitting the running text once on the reconstructed literal
`![alt](url)` each time (Python `split(..., 1)`); leftover text at the
end becomes a trailing plain node. -/
def imageSplitLoop : List Char → List (List Char × List Char) → List TextNode
  | current, [] => if current = [] then [] else [⟨current, TextType.text, none⟩]
  | current, (alt, url) :: rest =>
    let md := '!' :: '[' :: alt ++ ']' :: '(' :: url ++ [')']
    match splitFirst md current with
    | some (pre, post) =>
      (if pre = [] then [] else [⟨pre, TextType.text, none⟩])
        ++ ⟨alt, TextType.image, some url⟩ :: imageSplitLoop post rest
    | none =>
      (if current = [] then [] else [⟨current, TextType.text, none⟩])
        ++ ⟨alt, TextType.image, some url⟩ :: imageSplitLoop [] rest

/-- `split_nodes_image`: non-plain nodes pass through; a plain node with no
image stays whole, otherwise it is split around each image. -/
def splitNodesImage : List TextNode → List TextNode
  | [] => []
  | n :: ns =>
    (if n.textType = TextType.text then
      let imgs := extractMarkdownImages n.text
      if imgs = [] then [n] else imageSplitLoop n.text imgs
    else [n]) ++ splitNodesImage ns

/-- The loop body of `split_nodes_link`, splitting on the literal
`[text](url)`. -/
def linkSplitLoop : List Char → List (List Char × List Char) → List TextNode
  | current, [] => if current = [] then [] else [⟨current, TextType.text, none⟩]
  | current, (txt, url) :: rest =>
    let md := '[' :: txt ++ ']' :: '(' :: url ++ [')']
    match splitFirst md current with
    | some (pre, post) =>
      (if pre = [] then [] else [⟨pre, TextType.text, none⟩])
        ++ ⟨txt, TextType.link, some url⟩ :: linkSplitLoop post rest
    | none =>
      (if current = [] then [] else [⟨current, TextType.text, none⟩])
        ++ ⟨txt, TextType.link, some url⟩ :: linkSplitLoop [] rest

/-- `split_nodes_link`. -/
def splitNodesLink : List TextNode → List TextNode
  | [] => []
  | n :: ns =>
    (if n.textType = TextType.text then
      let links := extractMarkdownLinks n.text
      if links = [] then [n] else linkSplitLoop n.text links
    else [n]) ++ splitNodesLink ns

/-- `text_to_textnodes`: the five-pass inline pipeline, started from a
single plain node wrapping the input. -/
def textToTextnodes (text : List Char) : Except MDError (List TextNode) :=
  match splitNodesDelimiter [⟨text, TextType.text, none⟩] "**".data TextType.bold with
  | .error e => .error e
  | .ok n1 =>
    match splitNodesDelimiter n1 "_".data TextType.italic with
    | .error e => .error e
    | .ok n2 =>
      match splitNodesDelimiter n2 "`".data TextType.code with
      | .error e => .error e
      | .ok n3 => .ok (splitNodesLink (splitNodesImage n3))

/-- The spec's name for the inline pipeline. -/
def lex : List Char → Except MDError (List TextNode) := textToTextnodes

/-! ## HTML node model (`htmlnode.py`) -/

/-- The two node variants: `LeafNode(tag, value, props)` and
`ParentNode(tag, children, props)`.  Python's `props` is an
insertion-ordered dict, embedded as an association list; a `None` props
and an empty dict render identically (both yield the empty attribute
string), so both are embedded as `[]`. -/
inductive HTMLNode where
  | leaf (tag : Option (List Char)) (value : Option (List Char))
      (props : List (List Char × List Char))
  | parent (tag : List Char) (children : List HTMLNode)
      (props : List (List Char × List Char))
deriving Repr

/-- `HTMLNode.props_to_html`: for each attribute in insertion order emit
` key="value"`. -/
def propsToHtml (props : List (List Char × List Char)) : List Char :=
  match props with
  | [] => []
  | (k, v) :: rest => ' ' :: (k ++ '=' :: '"' :: v ++ '"' :: propsToHtml rest)

/-- `LeafNode.to_html`.  Note the guard is
`value is None and tag != "img"`: a leaf with *no* tag and no value also
raises, because in Python `None != "img"` is true.  When the no-tag branch
is reached the value is therefore never `None`; `getD []` only fills the
unreachable case. -/
def leafToHtml (tag : Option (List Char)) (value : Option (List Char))
    (props : List (List Char × List Char)) : Except MDError (List Char) :=
  if value = none ∧ tag ≠ some "img".data then
    .error (.valueConstraint "LeafNode must have a value.".data)
  else
    match tag with
    | none => .ok (value.getD [])
    | some t =>
      if t = "img".data then .ok ('<' :: t ++ propsToHtml props ++ " />".data)
      else
        .ok ('<' :: t ++ propsToHtml props ++ '>' :: value.getD []
          ++ '<' :: '/' :: t ++ ['>'])

mutual

/-- `to_html`: leaves render via `leafToHtml`; a parent renders its
children in order, concatenated between its opening and closing tag
(`ParentNode`'s constructor always supplies a tag and a children list, so
its two `ValueError` guards are unreachable and not modelled). -/
def HTMLNode.toHtml : HTMLNode → Except MDError (List Char)
  | .leaf tag value props => leafToHtml tag value props
  | .parent t children props =>
    match HTMLNode.childrenToHtml children with
    | .error e => .error e
    | .ok inner =>
      .ok ('<' :: t ++ propsToHtml props ++ '>' :: inner ++ '<' :: '/' :: t ++ ['>'])

/-- Left-to-right rendering and concatenation of a child list; the first
failing child aborts, as the Python generator expression does. -/
def HTMLNode.childrenToHtml : List HTMLNode → Except MDError (List Char)
  | [] => .ok []
  | c :: cs =>
    match c.toHtml with
    | .error e => .error e
    | .ok h =>
      match HTMLNode.childrenToHtml cs with
      | .error e => .error e
      | .ok rest => .ok (h ++ rest)

end

/-- `text_node_to_html_node` (`main.py`): the fixed span-variant-to-leaf
mapping.  The `url` of a link or image is always set by the lexer; Python
would format a missing one as the string `None`, which `getD` mirrors. -/
def textNodeToHtmlNode (tn : TextNode) : HTMLNode :=
  match tn.textType with
  | .text => .leaf none (some tn.text) []
  | .bold => .leaf (some "b".data) (some tn.text) []
  | .italic => .leaf (some "i".data) (some tn.text) []
  | .code => .leaf (some "code".data) (some tn.text) []
  | .link => .leaf (some "a".data) (some tn.text)
      [("href".data, tn.url.getD "None".data)]
  | .image => .leaf (some "img".data) (some [])
      [("src".data, tn.url.getD "None".data), ("alt".data, tn.text)]

/-! ## Block classification and assembly (`inline_markdown.py`) -/

/-- The six block types returned by `block_to_block_type`. -/
inductive BlockType where
  | heading
  | code
  | unorderedList
  | orderedList
  | quote
  | paragraph
deriving DecidableEq, Repr

/-- `markdown_to_blocks`: split on blank lines, strip each block, drop
blocks that are empty after stripping. -/
def markdownToBlocks (md : List Char) : List (List Char) :=
  ((pySplit "\n\n".data md).map strip).filter (fun b => !b.isEmpty)

/-- The number of leading `#` characters (the loop
`for char in ...: if char == "#": level += 1 else: break`). -/
def headingLevel (l : List Char) : Nat :=
  (l.takeWhile (fun c => c == '#')).length

/-- The heading test applied to a block's first line: starts with `#`, the
run of `#` has length 1–6, and is immediately followed by a space. -/
def isHeadingLine (l : List Char) : Bool :=
  match l with
  | [] => false
  | c :: _ =>
    c == '#' &&
      (let lv := headingLevel l
       decide (lv ≤ 6) && decide (0 < lv) && ((l.drop lv).headD '#' == ' '))

/-- Every line starts with `- ` or `* `. -/
def isUnordered (lines : List (List Char)) : Bool :=
  lines.all (fun l => "- ".data.isPrefixOf l || "* ".data.isPrefixOf l)

/-- Line `i` (0-indexed) starts with the literal `"{i+1}. "`, for every
line from index `i` on. -/
def isOrderedFrom : Nat → List (List Char) → Bool
  | _, [] => true
  | i, l :: ls =>
    ((Nat.repr (i + 1)).data ++ ". ".data).isPrefixOf l && isOrderedFrom (i + 1) ls

/-- Every line starts with `>`. -/
def isQuote (lines : List (List Char)) : Bool :=
  lines.all (fun l => ">".data.isPrefixOf l)

/-- `block_to_block_type`: first-match classification in the order
heading, fenced code, unordered list, ordered list, quote, paragraph. -/
def blockToBlockType (b : List Char) : BlockType :=
  let lines := pySplit "\n".data b
  if isHeadingLine (lines.headD []) then .heading
  else if "```".data.isPrefixOf b && "```".data.isSuffixOf b then .code
  else if isUnordered lines then .unorderedList
  else if isOrderedFrom 0 lines then .orderedList
  else if isQuote lines then .quote
  else .paragraph

/-- `text_to_children`: lex the text and convert every span to a node. -/
def textToChildren (t : List Char) : Except MDError (List HTMLNode) :=
  match textToTextnodes t with
  | .error e => .error e
  | .ok tns => .ok (tns.map textNodeToHtmlNode)

/-- The fenced-code content: drop the first and last line, join the rest
with newline (the middle conditional of the Python code recomputes the
same join and is kept for faithfulness), and append one trailing newline
when the joined content is non-empty. -/
def fencedCodeContent (b : List Char) : List Char :=
  let lines := pySplit "\n".data b
  let c1 := if 2 < lines.length
    then List.intercalate "\n".data ((lines.drop 1).dropLast) else []
  let c2 := if c1 = [] ∧ 2 ≤ lines.length
    then List.intercalate "\n".data ((lines.drop 1).dropLast) else c1
  if c2 ≠ [] then c2 ++ "\n".data else c2

/-- Unordered-list items: strip the 2-character bullet, lex, wrap in `li`. -/
def ulItems : List (List Char) → Except MDError (List HTMLNode)
  | [] => .ok []
  | l :: ls =>
    let itemText := if "- ".data.isPrefixOf l || "* ".data.isPrefixOf l
      then l.drop 2 else l
    match textToChildren itemText with
    | .error e => .error e
    | .ok cs =>
      match ulItems ls with
      | .error e => .error e
      | .ok rest => .ok (.parent "li".data cs [] :: rest)

/-- Ordered-list items: drop through the first `". "` (Python
`line.find(". ")`), lex, wrap in `li`. -/
def olItems : List (List Char) → Except MDError (List HTMLNode)
  | [] => .ok []
  | l :: ls =>
    let itemText := match splitFirst ". ".data l with
      | some (_, post) => post
      | none => l
    match textToChildren itemText with
    | .error e => .error e
    | .ok cs =>
      match olItems ls with
      | .error e => .error e
      | .ok rest => .ok (.parent "li".data cs [] :: rest)

/-- Quote lines: drop a leading `>` and strip, otherwise keep the line. -/
def quoteLine (l : List Char) : List Char :=
  if ">".data.isPrefixOf l then strip (l.drop 1) else l

/-- Assemble one classified block into an HTML node
(the per-type branches of `markdown_to_html_node`). -/
def blockToHtmlNode (b : List Char) : Except MDError HTMLNode :=
  match blockToBlockType b with
  | .heading =>
    let lv := headingLevel b
    let content := strip (b.drop lv)
    (match textToChildren content with
     | .error e => .error e
     | .ok cs => .ok (.parent ("h".data ++ (Nat.repr lv).data) cs []))
  | .code =>
    .ok (.parent "pre".data
      [.leaf (some "code".data) (some (fencedCodeContent b)) []] [])
  | .unorderedList =>
    (match ulItems (pySplit "\n".data b) with
     | .error e => .error e
     | .ok items => .ok (.parent "ul".data items []))
  | .orderedList =>
    (match olItems (pySplit "\n".data b) with
     | .error e => .error e
     | .ok items => .ok (.parent "ol".data items []))
  | .quote =>
    let quoteText := List.intercalate " ".data ((pySplit "\n".data b).map quoteLine)
    (match textToChildren quoteText with
     | .error e => .error e
     | .ok cs => .ok (.parent "blockquote".data cs []))
  | .paragraph =>
    let paragraphText := List.intercalate " ".data (pySplit "\n".data b)
    (match textToChildren paragraphText with
     | .error e => .error e
     | .ok cs => .ok (.parent "p".data cs []))

/-- Assemble every block in order, aborting at the first failure as the
Python loop does when an exception propagates. -/
def blocksToNodes : List (List Char) → Except MDError (List HTMLNode)
  | [] => .ok []
  | b :: bs =>
    match blockToHtmlNode b with
    | .error e => .error e
    | .ok n =>
      match blocksToNodes bs with
      | .error e => .error e
      | .ok rest => .ok (n :: rest)

/-- `markdown_to_html_node` (the spec's `convert_document`): all assembled
block nodes collected under a root `div`. -/
def markdownToHtmlNode (md : List Char) : Except MDError HTMLNode :=
  match blocksToNodes (markdownToBlocks md) with
  | .error e => .error e
  | .ok cs => .ok (.parent "div".data cs [])

/-- Modelled from the spec: `extract_title` is imported from
`inline_markdown` by `main.py` and exercised by `test_extract_title.py`,
but its definition is absent from the sources.  Per the spec it scans the
document's lines for the first one whose stripped form is a single `#`
followed by a space and returns the trimmed remainder after the marker,
failing with `NotFound` otherwise. -/
def extractTitleLines : List (List Char) → Except MDError (List Char)
  | [] => .error .notFound
  | l :: ls =>
    let s := strip l
    if s.take 2 = "# ".data then .ok (strip (s.drop 2))
    else extractTitleLines ls

/-- Modelled from the spec: see `extractTitleLines`. -/
def extractTitle (md : List Char) : Except MDError (List Char) :=
  extractTitleLines (pySplit "\n".data md)

/-! ## Helper lemmas about the pipeline -/

/-- A delimiter pass leaves a single plain node without the delimiter
untouched. -/
theorem splitNodesDelimiter_skip {d t : List Char} {tt : TextType}
    (h : pyContains d t = false) :
    splitNodesDelimiter [⟨t, TextType.text, none⟩] d tt
      = .ok [⟨t, TextType.text, none⟩] := by
  simp [splitNodesDelimiter, h]

/-- A delimiter pass on a single plain node containing the delimiter with
an odd piece count produces the pieces as nodes. -/
theorem splitNodesDelimiter_split {d t : List Char} {tt : TextType}
    (hcon : pyContains d t = true) (hodd : ¬ (pySplit d t).length % 2 = 0) :
    splitNodesDelimiter [⟨t, TextType.text, none⟩] d tt
      = .ok (partsToNodes tt 0 (pySplit d t) ++ []) := by
  simp [splitNodesDelimiter, hcon, hodd]

/-- The image pass leaves a plain node with no image untouched. -/
theorem splitNodesImage_skip {t : List Char}
    (h : extractMarkdownImages t = []) :
    splitNodesImage [⟨t, TextType.text, none⟩] = [⟨t, TextType.text, none⟩] := by
  simp [splitNodesImage, h]

/-- The link pass leaves a plain node with no link untouched. -/
theorem splitNodesLink_skip {t : List Char}
    (h : extractMarkdownLinks t = []) :
    splitNodesLink [⟨t, TextType.text, none⟩] = [⟨t, TextType.text, none⟩] := by
  simp [splitNodesLink, h]

theorem extractTitleLines_none : ∀ {ls : List (List Char)},
    (∀ l ∈ ls, (strip l).take 2 ≠ "# ".data) →
    extractTitleLines ls = .error .notFound := by
  intro ls
  induction ls with
  | nil => intro _; rfl
  | cons l ls ih =>
    intro h
    simp only [extractTitleLines]
    rw [if_neg (h l (by simp))]
    exact ih (fun l0 hl0 => h l0 (by simp [hl0]))

theorem extractTitleLines_found : ∀ {pre : List (List Char)},
    ∀ {l : List Char} {post : List (List Char)},
    (∀ l0 ∈ pre, (strip l0).take 2 ≠ "# ".data) →
    (strip l).take 2 = "# ".data →
    extractTitleLines (pre ++ l :: post) = .ok (strip ((strip l).drop 2)) := by
  intro pre
  induction pre with
  | nil =>
    intro l post _ hl
    simp only [List.nil_append, extractTitleLines]
    rw [if_pos hl]
  | cons p ps ih =>
    intro l post hpre hl
    simp only [List.cons_append, extractTitleLines]
    rw [if_neg (hpre p (by simp))]
    exact ih (fun l0 hl0 => hpre l0 (by simp [hl0])) hl

/-! ## Claims -/

/-- Claim C1: `markdown_to_html_node` returns a branch tagged `div` whose
children are, in block order, the assembled nodes of the document's
non-empty blocks; on the Tolkien document it yields a `div` with exactly
an `h1`, a `p` holding an image leaf, and a `p` holding bold text. -/
theorem claim1_convert_document :
    (∀ md cs, blocksToNodes (markdownToBlocks md) = .ok cs →
       markdownToHtmlNode md = .ok (.parent "div".data cs [])) ∧
    markdownToHtmlNode
        "# Tolkien Fan Club\n\n![x](/y.png)\n\nHere\x27s the deal, **I like Tolkien**.".data
      = .ok (.parent "div".data
          [.parent "h1".data [.leaf none (some "Tolkien Fan Club".data) []] [],
           .parent "p".data
             [.leaf (some "img".data) (some [])
               [("src".data, "/y.png".data), ("alt".data, "x".data)]] [],
           .parent "p".data
             [.leaf none (some "Here\x27s the deal, ".data) [],
              .leaf (some "b".data) (some "I like Tolkien".data) [],
              .leaf none (some ".".data) []] []] []) := by
  constructor
  · intro md cs h
    unfold markdownToHtmlNode
    rw [h]
  · rfl

/-- Witness for C1 at a one-paragraph document. -/
theorem claim1_convert_document_witness :
    markdownToHtmlNode "hi".data
      = .ok (.parent "div".data
          [.parent "p".data [.leaf none (some "hi".data) []] []] []) :=
  claim1_convert_document.1 "hi".data
    [.parent "p".data [.leaf none (some "hi".data) []] []] rfl

/-- Claim C4: a plain span containing a delimiter whose split yields an
even piece count makes the delimiter pass fail with the MarkdownSyntax
error carrying that delimiter, while an odd piece count succeeds; lexing
`"a `b"` with the backtick delimiter fails so. -/
theorem claim4_unclosed_delimiter :
    (∀ t d tt, d = "**".data ∨ d = "_".data ∨ d = "`".data →
       pyContains d t = true → (pySplit d t).length % 2 = 0 →
       splitNodesDelimiter [⟨t, TextType.text, none⟩] d tt
         = .error (.unclosedDelimiter d)) ∧
    (∀ t d tt, d = "**".data ∨ d = "_".data ∨ d = "`".data →
       (pySplit d t).length % 2 = 1 →
       ∃ res, splitNodesDelimiter [⟨t, TextType.text, none⟩] d tt = .ok res) ∧
    lex "a `b".data = .error (.unclosedDelimiter "`".data) := by
  refine ⟨?_, ?_, rfl⟩
  · intro t d tt _hd hcon heven
    simp [splitNodesDelimiter, hcon, heven]
  · intro t d tt _hd hodd
    by_cases hcon : pyContains d t = true
    · exact ⟨_, splitNodesDelimiter_split hcon (by omega)⟩
    · exact ⟨_, splitNodesDelimiter_skip (by simpa using hcon)⟩

/-- Witness for C4 at the unterminated input `"a `b"`. -/
theorem claim4_unclosed_delimiter_witness :
    splitNodesDelimiter [⟨"a `b".data, TextType.text, none⟩] "`".data TextType.code
      = .error (.unclosedDelimiter "`".data) :=
  claim4_unclosed_delimiter.1 "a `b".data "`".data TextType.code
    (Or.inr (Or.inr rfl)) rfl rfl

/-- Claim C5: `"![a](u)"` lexes to a single image span, `"[a](u)"` to a
single link span, the link extractor finds nothing in `"![a](u)"`, and the
link scanner never attempts a match at a position whose previous character
is `!`. -/
theorem claim5_image_link_disambiguation :
    lex "![a](u)".data = .ok [⟨"a".data, TextType.image, some "u".data⟩] ∧
    lex "[a](u)".data = .ok [⟨"a".data, TextType.link, some "u".data⟩] ∧
    extractMarkdownLinks "![a](u)".data = [] ∧
    (∀ fuel : Nat, ∀ c : Char, ∀ cs : List Char,
       scanLinksAux (fuel + 1) (some '!') (c :: cs) = scanLinksAux fuel (some c) cs) :=
  ⟨rfl, rfl, rfl, fun _ _ _ => rfl⟩

/-- A leaf whose value is present always renders successfully. -/
theorem leafToHtml_value_some : ∀ (tag : Option (List Char)) (v : List Char)
    (props : List (List Char × List Char)),
    ∃ out, leafToHtml tag (some v) props = Except.ok out := by
  intro tag v props
  unfold leafToHtml
  rw [if_neg (by simp)]
  cases tag with
  | none => exact ⟨_, rfl⟩
  | some t =>
    dsimp only
    by_cases ht : t = "img".data
    · exact ⟨_, by rw [if_pos ht]⟩
    · exact ⟨_, by rw [if_neg ht]⟩

/-- Counterexample to claim C6 as stated: a leaf with *no* tag and no
value also raises the ValueConstraint error (in Python `None != "img"` is
true), contradicting the claim's `exactly when its tag is set`. -/
theorem claim6_counterexample :
    (HTMLNode.leaf none none []).toHtml
      = .error (.valueConstraint "LeafNode must have a value.".data) := rfl

/-- Claim C6 (amended): rendering a leaf raises the ValueConstraint error
exactly when its value is absent and its tag is not `img` (whether or not
a tag is set); a tagless leaf with a value renders as the raw value; an
`img` leaf renders self-closing whatever its value. -/
theorem claim6_leaf_render :
    (∀ tag value props,
       ((HTMLNode.leaf tag value props).toHtml
           = .error (.valueConstraint "LeafNode must have a value.".data))
         ↔ (value = none ∧ tag ≠ some "img".data)) ∧
    (∀ v props, (HTMLNode.leaf none (some v) props).toHtml = .ok v) ∧
    (∀ value props, (HTMLNode.leaf (some "img".data) value props).toHtml
       = .ok ("<img".data ++ propsToHtml props ++ " />".data)) := by
  refine ⟨?_, ?_, ?_⟩
  · intro tag value props
    cases value with
    | some v =>
      obtain ⟨out, hout⟩ := leafToHtml_value_some tag v props
      constructor
      · intro hcontra
        rw [show (HTMLNode.leaf tag (some v) props).toHtml
            = leafToHtml tag (some v) props from rfl, hout] at hcontra
        exact Except.noConfusion hcontra
      · intro h; exact absurd h.1 (by simp)
    | none =>
      cases tag with
      | none =>
        constructor
        · intro _; exact ⟨rfl, by simp⟩
        · intro _; rfl
      | some t =>
        by_cases ht : t = "img".data
        · subst ht
          constructor
          · intro hcontra
            rw [show (HTMLNode.leaf (some "img".data) none props).toHtml
                = Except.ok ('<' :: ("img".data ++ propsToHtml props ++ " />".data))
                from rfl] at hcontra
            exact Except.noConfusion hcontra
          · intro h; exact absurd rfl h.2
        · constructor
          · intro _; exact ⟨rfl, by simp [ht]⟩
          · intro _
            show leafToHtml (some t) none props = _
            unfold leafToHtml
            rw [if_pos ⟨rfl, by simp [ht]⟩]
  · intro v props; rfl
  · intro value props
    cases value <;> rfl

/-- Claim C8: `extract_title` returns the trimmed remainder of the first
line whose stripped form starts with a single `#` plus space, fails with
NotFound when no line qualifies, and in particular fails on `""` and on
`"## only h2"`. -/
theorem claim8_extract_title :
    (∀ md, (∀ l ∈ pySplit "\n".data md, (strip l).take 2 ≠ "# ".data) →
       extractTitle md = .error .notFound) ∧
    (∀ md pre l post, pySplit "\n".data md = pre ++ l :: post →
       (∀ l0 ∈ pre, (strip l0).take 2 ≠ "# ".data) →
       (strip l).take 2 = "# ".data →
       extractTitle md = .ok (strip ((strip l).drop 2))) ∧
    extractTitle "".data = .error .notFound ∧
    extractTitle "## only h2".data = .error .notFound := by
  refine ⟨?_, ?_, rfl, rfl⟩
  · intro md h
    unfold extractTitle
    exact extractTitleLines_none h
  · intro md pre l post hsplit hpre hl
    unfold extractTitle
    rw [hsplit]
    exact extractTitleLines_found hpre hl

/-- Witness for C8 on a one-line level-1 heading. -/
theorem claim8_extract_title_witness :
    extractTitle "# Hi".data = .ok "Hi".data := by
  rw [claim8_extract_title.2.1 "# Hi".data [] "# Hi".data []
    (by decide) (by decide) (by decide)]
  rfl

/-- Counterexample to claim C9 as stated: `"![a](u)"` contains none of the
three delimiters yet does not lex to a single plain span — the image pass
rewrites it. -/
theorem claim9_counterexample :
    pyContains "**".data "![a](u)".data = false ∧
    pyContains "_".data "![a](u)".data = false ∧
    pyContains "`".data "![a](u)".data = false ∧
    lex "![a](u)".data = .ok [⟨"a".data, TextType.image, some "u".data⟩] ∧
    ([⟨"a".data, TextType.image, some "u".data⟩] : List TextNode)
      ≠ [⟨"![a](u)".data, TextType.text, none⟩] :=
  ⟨rfl, rfl, rfl, rfl, by decide⟩

/-- Claim C9 (amended): on text free of the three delimiters *and* of
image and link pattern matches, the pipeline is the identity: a single
plain span equal to the input. -/
theorem claim9_identity :
    ∀ t, pyContains "**".data t = false → pyContains "_".data t = false →
      pyContains "`".data t = false →
      extractMarkdownImages t = [] → extractMarkdownLinks t = [] →
      lex t = .ok [⟨t, TextType.text, none⟩] := by
  intro t h1 h2 h3 h4 h5
  unfold lex textToTextnodes
  simp only [splitNodesDelimiter_skip h1, splitNodesDelimiter_skip h2,
    splitNodesDelimiter_skip h3, splitNodesImage_skip h4, splitNodesLink_skip h5]

/-- Witness for C9 on plain text. -/
theorem claim9_identity_witness :
    lex "hello world".data = .ok [⟨"hello world".data, TextType.text, none⟩] :=
  claim9_identity "hello world".data rfl rfl rfl rfl rfl

/-- Claim C10: the span-to-leaf mapping is fixed per variant — tagless for
plain text, `b`/`i`/`code` for bold/italic/code, `a` with a single `href`
for links, and `img` with empty value and attributes `src` then `alt` for
images, which therefore render as `<img src="URL" alt="ALT" />`. -/
theorem claim10_span_to_leaf :
    (∀ t u, textNodeToHtmlNode ⟨t, TextType.text, u⟩ = .leaf none (some t) []) ∧
    (∀ t u, textNodeToHtmlNode ⟨t, TextType.bold, u⟩
       = .leaf (some "b".data) (some t) []) ∧
    (∀ t u, textNodeToHtmlNode ⟨t, TextType.italic, u⟩
       = .leaf (some "i".data) (some t) []) ∧
    (∀ t u, textNodeToHtmlNode ⟨t, TextType.code, u⟩
       = .leaf (some "code".data) (some t) []) ∧
    (∀ t u, textNodeToHtmlNode ⟨t, TextType.link, some u⟩
       = .leaf (some "a".data) (some t) [("href".data, u)]) ∧
    (∀ t u, textNodeToHtmlNode ⟨t, TextType.image, some u⟩
       = .leaf (some "img".data) (some [])
           [("src".data, u), ("alt".data, t)]) ∧
    (∀ t u, (textNodeToHtmlNode ⟨t, TextType.image, some u⟩).toHtml
       = .ok ("<img src=\"".data ++ u ++ "\" alt=\"".data ++ t ++ "\" />".data)) := by
  refine ⟨fun t u => rfl, fun t u => rfl, fun t u => rfl, fun t u => rfl,
    fun t u => rfl, fun t u => rfl, ?_⟩
  intro t u
  show Except.ok _ = _
  simp only [List.append_assoc, List.cons_append, List.nil_append, propsToHtml]
  rfl

/-- Counterexample to claim C3 as stated: `"_`x`"` has the form
`prefix ++ backtick ++ x ++ backtick ++ suffix` with `prefix = "_"`,
`x = "x"`, `suffix = ""`, non-empty `x` and balanced backticks, yet lexing
fails on the unterminated `_` before the backtick pass ever runs, instead
of producing `[Plain("_"), Code("x")]`. -/
theorem claim3_counterexample :
    "_`x`".data = "_".data ++ "`".data ++ "x".data ++ "`".data ++ [] ∧
    pyContains "`".data "_".data = false ∧
    pyContains "`".data "x".data = false ∧
    "x".data ≠ [] ∧
    lex "_`x`".data = .error (.unclosedDelimiter "_".data) :=
  ⟨rfl, rfl, rfl, by decide, rfl⟩

/-- Claim C3 (amended): for text `prefix ++ ` ++ x ++ ` ++ suffix` with
non-empty `x` and balanced backticks, lexing yields exactly
`[Plain(prefix)?, Code(x), Plain(suffix)?]` (empty parts omitted) —
provided additionally that the earlier `**` and `_` passes find no
occurrence in the text and the prefix and suffix contain no image or link
pattern, without which the earlier passes rewrite or reject the text. -/
theorem claim3_code_span :
    ∀ pre x suf : List Char, x ≠ [] →
      pyContains "`".data pre = false →
      pyContains "`".data x = false →
      pyContains "`".data suf = false →
      pyContains "**".data (pre ++ "`".data ++ x ++ "`".data ++ suf) = false →
      pyContains "_".data (pre ++ "`".data ++ x ++ "`".data ++ suf) = false →
      extractMarkdownImages pre = [] → extractMarkdownImages suf = [] →
      extractMarkdownLinks pre = [] → extractMarkdownLinks suf = [] →
      lex (pre ++ "`".data ++ x ++ "`".data ++ suf)
        = .ok ((if pre = [] then [] else [⟨pre, TextType.text, none⟩])
            ++ ⟨x, TextType.code, none⟩
              :: (if suf = [] then [] else [⟨suf, TextType.text, none⟩])) := by
  intro pre x suf hx hbp hbx hbs h1 h2 hi1 hi2 hl1 hl2
  obtain ⟨c, hc⟩ : ∃ c, "`".data = [c] := ⟨_, rfl⟩
  have hshape : pre ++ "`".data ++ x ++ "`".data ++ suf
      = pre ++ c :: (x ++ c :: suf) := by
    rw [hc]; simp [List.append_assoc]
  have sbp : splitFirst [c] pre = none := by
    rw [← hc]; exact pyContains_eq_false_iff.mp hbp
  have sbx : splitFirst [c] x = none := by
    rw [← hc]; exact pyContains_eq_false_iff.mp hbx
  have sbs : splitFirst [c] suf = none := by
    rw [← hc]; exact pyContains_eq_false_iff.mp hbs
  have hcont : pyContains "`".data (pre ++ "`".data ++ x ++ "`".data ++ suf) = true := by
    rw [hshape, hc]
    unfold pyContains
    rw [splitFirst_single_append sbp _]
    rfl
  have hparts : pySplit "`".data (pre ++ "`".data ++ x ++ "`".data ++ suf)
      = [pre, x, suf] := by
    rw [hshape, hc]
    exact pySplit_single_three sbp sbx sbs
  have hnodes : partsToNodes TextType.code 0 [pre, x, suf]
      = (if pre = [] then [] else [⟨pre, TextType.text, none⟩])
        ++ ⟨x, TextType.code, none⟩
          :: (if suf = [] then [] else [⟨suf, TextType.text, none⟩]) := by
    simp only [partsToNodes]
    rw [if_neg hx]
    simp
  have p3 : splitNodesDelimiter
      [⟨pre ++ "`".data ++ x ++ "`".data ++ suf, TextType.text, none⟩]
      "`".data TextType.code
      = .ok ((if pre = [] then [] else [⟨pre, TextType.text, none⟩])
          ++ ⟨x, TextType.code, none⟩
            :: (if suf = [] then [] else [⟨suf, TextType.text, none⟩])) := by
    rw [splitNodesDelimiter_split hcont (by rw [hparts]; simp), hparts, hnodes]
    simp
  unfold lex textToTextnodes
  simp only [splitNodesDelimiter_skip h1, splitNodesDelimiter_skip h2, p3]
  by_cases hpre : pre = [] <;> by_cases hsuf : suf = [] <;>
    simp [hpre, hsuf, splitNodesImage, splitNodesLink, hi1, hi2, hl1, hl2]

/-- Witness for C3 on `"a `b` c"`. -/
theorem claim3_code_span_witness :
    lex "a `b` c".data
      = .ok [⟨"a ".data, TextType.text, none⟩, ⟨"b".data, TextType.code, none⟩,
             ⟨" c".data, TextType.text, none⟩] :=
  claim3_code_span "a ".data "b".data " c".data (by decide)
    rfl rfl rfl rfl rfl rfl rfl rfl rfl

/-- Claim C7: a fenced code block is assembled by stripping the fence
lines, joining the rest with newline, appending exactly one trailing
newline iff the joined content is non-empty, and wrapping the raw
(un-lexed) text in a `code` leaf inside a `pre` branch; a single-content-
line fence renders as the content plus one newline inside
`<pre><code>...</code></pre>`. -/
theorem claim7_fenced_code :
    (∀ b, blockToBlockType b = BlockType.code →
       blockToHtmlNode b = .ok (.parent "pre".data
         [.leaf (some "code".data) (some (fencedCodeContent b)) []] [])) ∧
    (∀ x, splitFirst "\n".data x = none → x ≠ [] →
       blockToHtmlNode ("```\n".data ++ x ++ "\n```".data)
         = .ok (.parent "pre".data
             [.leaf (some "code".data) (some (x ++ "\n".data)) []] []) ∧
       (HTMLNode.parent "pre".data
           [.leaf (some "code".data) (some (x ++ "\n".data)) []] []).toHtml
         = .ok ("<pre><code>".data ++ x ++ "\n</code></pre>".data)) := by
  constructor
  · intro b h
    unfold blockToHtmlNode
    rw [h]
  · intro x hnl hx
    obtain ⟨m, hm⟩ : ∃ m, "\n".data = [m] := ⟨_, rfl⟩
    have hshape : "```\n".data ++ x ++ "\n```".data
        = "```".data ++ m :: (x ++ m :: "```".data) := by
      have e1 : "```\n".data = "```".data ++ [m] := by rw [← hm]; rfl
      have e2 : "\n```".data = [m] ++ "```".data := by rw [← hm]; rfl
      rw [e1, e2]
      simp [List.append_assoc]
    have sx : splitFirst [m] x = none := by rw [← hm]; exact hnl
    have sF : splitFirst [m] "```".data = none := by rw [← hm]; rfl
    have hlines : pySplit "\n".data ("```\n".data ++ x ++ "\n```".data)
        = ["```".data, x, "```".data] := by
      rw [hm, hshape]
      exact pySplit_single_three sF sx sF
    have hpre2 : "```".data.isPrefixOf ("```\n".data ++ x ++ "\n```".data) = true := by
      rw [hshape]
      exact isPrefixOf_append_self _
    have hsuf2 : "```".data.isSuffixOf ("```\n".data ++ x ++ "\n```".data) = true := by
      have e3 : "```\n".data ++ x ++ "\n```".data
          = ("```\n".data ++ x ++ [m]) ++ "```".data := by
        have e2 : "\n```".data = [m] ++ "```".data := by rw [← hm]; rfl
        rw [e2]
        simp [List.append_assoc]
      rw [e3]
      exact isSuffixOf_append_self _
    have hclass : blockToBlockType ("```\n".data ++ x ++ "\n```".data)
        = BlockType.code := by
      unfold blockToBlockType
      dsimp only
      rw [hlines]
      dsimp only [List.headD]
      rw [if_neg (by decide),
        if_pos (by rw [Bool.and_eq_true]; exact ⟨hpre2, hsuf2⟩)]
    have hcontent : fencedCodeContent ("```\n".data ++ x ++ "\n```".data)
        = x ++ "\n".data := by
      unfold fencedCodeContent
      rw [hlines]
      simp [hx, List.intercalate]
    constructor
    · unfold blockToHtmlNode
      rw [hclass, hcontent]
    · show Except.ok _ = _
      simp only [propsToHtml, Option.getD, List.append_assoc, List.cons_append,
        List.nil_append]

/-- Witness for C7 on the fence block with single content line `"abc"`. -/
theorem claim7_fenced_code_witness :
    blockToHtmlNode "```\nabc\n```".data
      = .ok (.parent "pre".data
          [.leaf (some "code".data) (some "abc\n".data) []] []) :=
  (claim7_fenced_code.2 "abc".data rfl (by decide)).1

/-! ## Helper lemmas for block classification -/

theorem isHeadingLine_head {l : List Char} (h : isHeadingLine l = true) :
    l.headD ' ' = '#' := by
  cases l with
  | nil => simp [isHeadingLine] at h
  | cons c cs =>
    simp only [isHeadingLine, Bool.and_eq_true, beq_iff_eq] at h
    simp [h.1]

theorem isOrderedFrom_head {l : List Char} {ls : List (List Char)}
    (h : isOrderedFrom 0 (l :: ls) = true) : l.headD ' ' = '1' := by
  simp only [isOrderedFrom, Bool.and_eq_true] at h
  have h1 := head_eq_of_isPrefixOf h.1 (by decide)
  rw [← h1]
  rfl

theorem isUnordered_head {l : List Char} {ls : List (List Char)}
    (h : isUnordered (l :: ls) = true) :
    l.headD ' ' = '-' ∨ l.headD ' ' = '*' := by
  simp only [isUnordered, List.all_cons, Bool.and_eq_true, Bool.or_eq_true] at h
  rcases h.1 with h' | h'
  · left; rw [← head_eq_of_isPrefixOf h' (by decide)]; rfl
  · right; rw [← head_eq_of_isPrefixOf h' (by decide)]; rfl

theorem block_head_eq_line_head {b l0 : List Char} {ls : List (List Char)}
    (hL : pySplit "\n".data b = l0 :: ls) (hne : l0 ≠ []) :
    b.headD ' ' = l0.headD ' ' := by
  obtain ⟨t, ht⟩ : ∃ t, b = (pySplit "\n".data b).headD [] ++ t :=
    pySplit_head_prefix (by decide)
  rw [hL] at ht
  cases l0 with
  | nil => exact absurd rfl hne
  | cons a as => rw [ht]; rfl

/-- Claim C2: `block_to_block_type` classifies a block as heading exactly
when its first line starts with 1–6 `#` immediately followed by a space,
and as ordered list exactly when line `i` starts with the literal
`"{i+1}. "` for every line; the four examples of the spec classify
accordingly.  (The classifier's rule order is heading, fenced code,
unordered list, ordered list, quote, paragraph, as in
`blockToBlockType`.) -/
theorem claim2_block_classification :
    (∀ b, blockToBlockType b = BlockType.heading ↔
       isHeadingLine ((pySplit "\n".data b).headD []) = true) ∧
    (∀ b, blockToBlockType b = BlockType.orderedList ↔
       isOrderedFrom 0 (pySplit "\n".data b) = true) ∧
    blockToBlockType "# Title".data = BlockType.heading ∧
    blockToBlockType "####### x".data = BlockType.paragraph ∧
    blockToBlockType "1. a\n2. b".data = BlockType.orderedList ∧
    blockToBlockType "1. a\n3. b".data = BlockType.paragraph := by
  refine ⟨?_, ?_, rfl, rfl, rfl, rfl⟩
  · intro b
    show (if isHeadingLine ((pySplit "\n".data b).headD []) = true then BlockType.heading
      else if ("```".data.isPrefixOf b && "```".data.isSuffixOf b) = true then
        BlockType.code
      else if isUnordered (pySplit "\n".data b) = true then BlockType.unorderedList
      else if isOrderedFrom 0 (pySplit "\n".data b) = true then BlockType.orderedList
      else if isQuote (pySplit "\n".data b) = true then BlockType.quote
      else BlockType.paragraph) = BlockType.heading
      ↔ isHeadingLine ((pySplit "\n".data b).headD []) = true
    by_cases h1 : isHeadingLine ((pySplit "\n".data b).headD []) = true
    · rw [if_pos h1]
      exact iff_of_true rfl h1
    · rw [if_neg h1]
      refine iff_of_false ?_ h1
      by_cases h2 : ("```".data.isPrefixOf b && "```".data.isSuffixOf b) = true
      · rw [if_pos h2]; simp
      · rw [if_neg h2]
        by_cases h3 : isUnordered (pySplit "\n".data b) = true
        · rw [if_pos h3]; simp
        · rw [if_neg h3]
          by_cases h4 : isOrderedFrom 0 (pySplit "\n".data b) = true
          · rw [if_pos h4]; simp
          · rw [if_neg h4]
            by_cases h5 : isQuote (pySplit "\n".data b) = true
            · rw [if_pos h5]; simp
            · rw [if_neg h5]; simp
  · intro b
    obtain ⟨l0, ls, hL⟩ : ∃ l0 ls, pySplit "\n".data b = l0 :: ls := by
      cases hP : pySplit "\n".data b with
      | nil => exact absurd hP pySplit_ne_nil
      | cons a as => exact ⟨a, as, rfl⟩
    show (if isHeadingLine ((pySplit "\n".data b).headD []) = true then BlockType.heading
      else if ("```".data.isPrefixOf b && "```".data.isSuffixOf b) = true then
        BlockType.code
      else if isUnordered (pySplit "\n".data b) = true then BlockType.unorderedList
      else if isOrderedFrom 0 (pySplit "\n".data b) = true then BlockType.orderedList
      else if isQuote (pySplit "\n".data b) = true then BlockType.quote
      else BlockType.paragraph) = BlockType.orderedList
      ↔ isOrderedFrom 0 (pySplit "\n".data b) = true
    rw [hL]
    by_cases h4 : isOrderedFrom 0 (l0 :: ls) = true
    · have hhead : l0.headD ' ' = '1' := isOrderedFrom_head h4
      have hl0ne : l0 ≠ [] := by
        intro hnil
        rw [hnil] at hhead
        exact absurd hhead (by decide)
      have hbhead : b.headD ' ' = '1' := by
        rw [block_head_eq_line_head hL hl0ne, hhead]
      have h1 : ¬ isHeadingLine ((l0 :: ls).headD []) = true := by
        intro hcon
        have hcon2 : isHeadingLine l0 = true := hcon
        have hch := isHeadingLine_head hcon2
        have hc2 : ('1' : Char) = '#' := hhead.symm.trans hch
        exact absurd hc2 (by decide)
      have h2 : ¬ ("```".data.isPrefixOf b && "```".data.isSuffixOf b) = true := by
        intro hcon
        rw [Bool.and_eq_true] at hcon
        have hch := head_eq_of_isPrefixOf hcon.1 (by decide)
        rw [hbhead] at hch
        exact absurd hch (by decide)
      have h3 : ¬ isUnordered (l0 :: ls) = true := by
        intro hcon
        rcases isUnordered_head hcon with h' | h' <;>
          (rw [hhead] at h'; exact absurd h' (by decide))
      rw [if_neg h1, if_neg h2, if_neg h3, if_pos h4]
      exact iff_of_true rfl h4
    · refine iff_of_false ?_ h4
      by_cases h1 : isHeadingLine ((l0 :: ls).headD []) = true
      · rw [if_pos h1]; simp
      · rw [if_neg h1]
        by_cases h2 : ("```".data.isPrefixOf b && "```".data.isSuffixOf b) = true
        · rw [if_pos h2]; simp
        · rw [if_neg h2]
          by_cases h3 : isUnordered (l0 :: ls) = true
          · rw [if_pos h3]; simp
          · rw [if_neg h3, if_neg h4]
            by_cases h5 : isQuote (l0 :: ls) = true
            · rw [if_pos h5]; simp
            · rw [if_neg h5]; simp
